import Mathlib

/-!
Verification of the pitch-detection core of the guitar-tuner repository.

The embedding follows `src/pitch-detector.js` (the browser port); for the
note-mapping claims it also embeds the corresponding code of
`src/AccordatoreChitarra/AudioEngine.cs` (the desktop port) where the two
ports differ.

Number model: JavaScript numbers are IEEE-754 doubles.  Finite values are
idealized as exact rationals; the special values NaN, +Infinity and
-Infinity are modelled explicitly by `ENum`, because `parabolicInterpolation`
can divide by zero and the resulting special values flow through the rest of
the pipeline (JS numeric comparisons involving NaN are false, which the
comparison functions below reproduce).  Negative zero is not modelled: every
zero these functions store arises from an empty accumulation starting at +0
or from a zero-initialized Float32Array entry, never as -0.
-/

set_option maxRecDepth 100000

/-- Model of a JavaScript number: an exact rational for finite doubles, plus
NaN and the two infinities. -/
inductive ENum where
  | num (q : ℚ)
  | nan
  | inf
  | ninf
deriving DecidableEq, Repr

namespace ENum

/-- JavaScript `<`: any comparison involving NaN is false. -/
def ltB : ENum → ENum → Bool
  | nan, _ => false
  | _, nan => false
  | num a, num b => decide (a < b)
  | num _, inf => true
  | num _, ninf => false
  | inf, _ => false
  | ninf, ninf => false
  | ninf, _ => true

/-- JavaScript `<=`: any comparison involving NaN is false. -/
def leB : ENum → ENum → Bool
  | nan, _ => false
  | _, nan => false
  | num a, num b => decide (a ≤ b)
  | num _, inf => true
  | num _, ninf => false
  | inf, inf => true
  | inf, _ => false
  | ninf, _ => true

/-- JavaScript `>=`, written `a >= b`, is `b <= a` (both are false on NaN). -/
def geB (a b : ENum) : Bool := leB b a

/-- IEEE addition on the model (no -0: x + (-x) is +0 in round-to-nearest). -/
def add : ENum → ENum → ENum
  | nan, _ => nan
  | _, nan => nan
  | num a, num b => num (a + b)
  | inf, ninf => nan
  | ninf, inf => nan
  | inf, _ => inf
  | _, inf => inf
  | ninf, _ => ninf
  | _, ninf => ninf

/-- IEEE division on the model.  A finite nonzero value divided by (+)0 gives
the signed infinity, 0/0 gives NaN, and a finite value divided by an infinity
gives 0. -/
def div : ENum → ENum → ENum
  | nan, _ => nan
  | _, nan => nan
  | num a, num b =>
      if b = 0 then (if a = 0 then nan else if 0 < a then inf else ninf)
      else num (a / b)
  | num _, inf => num 0
  | num _, ninf => num 0
  | inf, num b => if b < 0 then ninf else inf
  | ninf, num b => if b < 0 then inf else ninf
  | inf, inf => nan
  | inf, ninf => nan
  | ninf, inf => nan
  | ninf, ninf => nan

/-- JavaScript `Math.floor`: the identity on NaN and the infinities. -/
def floorE : ENum → ENum
  | num q => num (⌊q⌋ : ℚ)
  | e => e

end ENum

/-- The detector configuration exactly as the JS constructor stores it
(`pitch-detector.js` lines 6-12).  The fields are JS numbers; the claims only
involve finite configurations, modelled as exact rationals. -/
structure PitchDetector where
  sampleRate : ℚ
  minFrequency : ℚ
  maxFrequency : ℚ
  threshold : ℚ
deriving DecidableEq, Repr

/-- The constructor (`pitch-detector.js` lines 7-12): it assigns the four
arguments to the four fields and performs no validation of any kind. -/
def PitchDetector.make (sampleRate minFrequency maxFrequency threshold : ℚ) : PitchDetector :=
  ⟨sampleRate, minFrequency, maxFrequency, threshold⟩

/-- Model of `Math.sqrt` on the nonnegative rationals: for `q = n/d` in lowest
terms it returns `Nat.sqrt (n * d) / d`, which is exact whenever `q` is the
square of a rational (the only inputs for which the proofs below evaluate it)
and a floor approximation otherwise.  Only nonnegativity and exactness on
rational squares are relied on. -/
def sqrtQ (q : ℚ) : ℚ := (Nat.sqrt (q.num.toNat * q.den) : ℚ) / (q.den : ℚ)

/-- `calculateRMS` (`pitch-detector.js` lines 184-195): 0 for an empty buffer,
otherwise the square root of the mean of the squares. -/
def calculateRMS (s : List ℚ) : ℚ :=
  if s.length = 0 then 0
  else sqrtQ ((s.map (fun x => x * x)).sum / (s.length : ℚ))

/-- `minLag = Math.floor(this.sampleRate / this.maxFrequency)` (line 70).
Rational division by zero yields 0 where JS would yield Infinity; the claims
only involve positive frequencies, where the two agree. -/
def minLag (d : PitchDetector) : ℤ := ⌊d.sampleRate / d.maxFrequency⌋

/-- `maxLag = Math.floor(this.sampleRate / this.minFrequency)` (line 71). -/
def maxLag (d : PitchDetector) : ℤ := ⌊d.sampleRate / d.minFrequency⌋

/-- `bufferSize = Math.min(samples.length, maxLag * 2)` (line 72). -/
def acWindow (d : PitchDetector) (s : List ℚ) : ℤ :=
  min (s.length : ℤ) (maxLag d * 2)

/-- The inner sum of the autocorrelation double loop (lines 78-81):
`sum += samples[i] * samples[i + lag]` for `0 <= i < bufferSize - lag`.
All proofs keep the reads in bounds, where `getD _ 0` is the exact list
entry. -/
def acSum (s : List ℚ) (window : ℤ) (lag : ℕ) : ℚ :=
  ((List.range (window - lag).toNat).map (fun i => s.getD i 0 * s.getD (i + lag) 0)).sum

/-- The `autocorrelation` Float32Array of length `maxLag + 1` (lines 75-83):
zero-initialized, and the loop writes the lags from `minLag` to `maxLag`.
(A typed array ignores writes at negative indices, so entries outside
`[minLag, maxLag]` keep their initial 0.) -/
def autocorrelation (d : PitchDetector) (s : List ℚ) : List ℚ :=
  (List.range (maxLag d + 1).toNat).map
    (fun (lag : ℕ) =>
      if minLag d ≤ (lag : ℤ) ∧ (lag : ℤ) ≤ maxLag d then acSum s (acWindow d s) lag else 0)

/-- A read `a[i]` of a Float32Array at an integer index: the stored value in
bounds, `undefined` (here `none`) out of bounds. -/
def readQ (l : List ℚ) (i : ℤ) : Option ℚ :=
  if 0 ≤ i then l[i.toNat]? else none

/-- The integers from `lo` to `hi` inclusive, the iteration space of
`for (let i = lo; i <= hi; i++)`. -/
def intRange (lo hi : ℤ) : List ℤ :=
  (List.range (hi + 1 - lo).toNat).map (fun (k : ℕ) => lo + (k : ℤ))

/-- One step of the `findFirstPeak` scan (lines 112-117): replace the running
maximum only on `autocorrelation[i] > maxValue`, which is false when the read
is `undefined` (JS comparison with `undefined` is false). -/
def peakStep (ac : List ℚ) : ENum × ℤ → ℤ → ENum × ℤ :=
  fun state i =>
    match readQ ac i with
    | some v => if ENum.ltB state.1 (ENum.num v) then (ENum.num v, i) else state
    | none => state

/-- `findFirstPeak` (lines 108-120): scan the lags from `minLag` to `maxLag`
with running maximum started at `-Infinity` and index started at 0, replacing
only on strict increase. -/
def findFirstPeak (ac : List ℚ) (lo hi : ℤ) : ℤ :=
  ((intRange lo hi).foldl (peakStep ac) (ENum.ninf, 0)).2

/-- `parabolicInterpolation` (lines 128-140).  With `alpha = data[index-1]`,
`beta = data[index]`, `gamma = data[index+1]`, the offset is
`0.5 * (alpha - gamma) / (alpha - 2*beta + gamma)` and the result is
`index + offset`.  There is no guard on the denominator: when it is 0 the
division yields NaN (numerator 0) or a signed infinity, and that special
value is returned. -/
def parabolicInterpolation (data : List ℚ) (index : ℤ) : ENum :=
  if index ≤ 0 ∨ (data.length : ℤ) - 1 ≤ index then ENum.num (index : ℚ)
  else
    ENum.add (ENum.num (index : ℚ))
      (ENum.div
        (ENum.num (1/2 * (data.getD (index - 1).toNat 0 - data.getD (index + 1).toNat 0)))
        (ENum.num (data.getD (index - 1).toNat 0 - 2 * data.getD index.toNat 0
          + data.getD (index + 1).toNat 0)))

/-- `autocorrelationPitchDetection` (lines 69-99): build the autocorrelation,
find the peak lag, return 0 if it is 0, otherwise refine it and return
`sampleRate / refinedLag`. -/
def autocorrelationPitchDetection (d : PitchDetector) (s : List ℚ) : ENum :=
  if findFirstPeak (autocorrelation d s) (minLag d) (maxLag d) = 0 then ENum.num 0
  else
    ENum.div (ENum.num d.sampleRate)
      (parabolicInterpolation (autocorrelation d s)
        (findFirstPeak (autocorrelation d s) (minLag d) (maxLag d)))

/-- The correlation loop of `calculateConfidence` (lines 159-176), taken at an
integer period `p > 0`: `count = Math.min(samples.length - period, period * 2)`
iterations accumulate `samples[i]*samples[i+period]` and `samples[i]^2`, and
the result is 0 when the energy is 0, else the ratio clamped to [0, 1]. -/
def confLoop (s : List ℚ) (p : ℤ) : ℚ :=
  if (((List.range (min ((s.length : ℤ) - p) (p * 2)).toNat).map
        (fun i => s.getD i 0 * s.getD i 0)).sum) = 0 then 0
  else
    max 0 (min 1
      ((((List.range (min ((s.length : ℤ) - p) (p * 2)).toNat).map
          (fun i => s.getD i 0 * s.getD (i + p.toNat) 0)).sum) /
       (((List.range (min ((s.length : ℤ) - p) (p * 2)).toNat).map
          (fun i => s.getD i 0 * s.getD i 0)).sum)))

/-- `calculateConfidence` (lines 148-177).  `period` is
`Math.floor(sampleRate / frequency)`.  The wildcard arm is reached only for a
NaN period (frequency NaN): there both range guards are false (NaN
comparisons), `count` is NaN, the loop runs zero times, and the
`sumSquares === 0` guard returns 0 -- the same value.  A period of ±Infinity
cannot reach the wildcard: `frequency = ±Infinity` gives period 0 and
`frequency = num q` gives a finite period, both through the `num` arm. -/
def calculateConfidence (d : PitchDetector) (s : List ℚ) (frequency : ENum) : ℚ :=
  if ENum.leB frequency (ENum.num 0) then 0
  else
    match ENum.floorE (ENum.div (ENum.num d.sampleRate) frequency) with
    | ENum.num p =>
        if p ≤ 0 ∨ (s.length : ℚ) / 2 ≤ p then 0
        else confLoop s ⌊p⌋
    | _ => 0

/-- The result record of one detection call (`detectPitch` returns an object
with these four fields). -/
structure PitchResult where
  frequency : ENum
  confidence : ℚ
  isValid : Bool
  rms : ℚ
deriving DecidableEq, Repr

/-- The part of `detectPitch` after the silence gate (lines 40-61): run the
autocorrelation estimate; if the frequency compares below `minFrequency` or
above `maxFrequency` (NaN does neither), return it as-is with confidence 0 and
`isValid = false`; otherwise compute the confidence and set
`isValid = confidence > 0.5`. -/
def detectPitchSignal (d : PitchDetector) (s : List ℚ) (rms : ℚ) : PitchResult :=
  if ENum.ltB (autocorrelationPitchDetection d s) (ENum.num d.minFrequency)
      || ENum.ltB (ENum.num d.maxFrequency) (autocorrelationPitchDetection d s) then
    ⟨autocorrelationPitchDetection d s, 0, false, rms⟩
  else
    ⟨autocorrelationPitchDetection d s,
     calculateConfidence d s (autocorrelationPitchDetection d s),
     decide ((1:ℚ)/2 < calculateConfidence d s (autocorrelationPitchDetection d s)),
     rms⟩

/-- `detectPitch` (lines 19-62): empty buffer -> invalid zero result; buffer
with `rms < threshold` (strict) -> invalid zero-frequency result carrying the
rms; otherwise the signal path above. -/
def detectPitch (d : PitchDetector) (s : List ℚ) : PitchResult :=
  if s.length = 0 then ⟨ENum.num 0, 0, false, 0⟩
  else if calculateRMS s < d.threshold then ⟨ENum.num 0, 0, false, calculateRMS s⟩
  else detectPitchSignal d s (calculateRMS s)

/-- The solfege naming table of `getNoteFromFrequency` (line 231; identical in
the C# port, line 608). -/
def noteNamesItalian : List String :=
  ["DO", "DO#", "RE", "RE#", "MI", "FA", "FA#", "SOL", "SOL#", "LA", "LA#", "SI"]

/-- The letter naming table (line 232; identical in the C# port, line 609),
one flat list in the source, assembled here from its two halves. -/
def noteNamesAnglo : List String :=
  ["C", "C#", "D", "D#", "E", "F"] ++ ["F#", "G", "G#", "A", "A#", "B"]

/-- The note record both ports build for a positive frequency.  The two
transcendental fields are carried in exact form: `semitonesFromA4` is the
integer `midiNote - 69`, which determines the stored
`perfectFrequency = 440 * 2^(semitonesFromA4/12)` (the map is injective), and
`centsOffset` is the exact value of `1200 * log2(frequency/perfectFrequency)`,
which equals `100 * (halfSteps - (midiNote - 69))` for
`halfSteps = 12 * log2(frequency/440)`.  The field `actualFrequency` (the
echoed input) and the JS-only display fields are omitted. -/
structure MusicalNote where
  midiNote : ℤ
  noteIndex : ℤ
  octave : ℤ
  noteName : Option String
  noteNameAnglo : Option String
  semitonesFromA4 : ℤ
  centsOffset : ℚ
deriving DecidableEq, Repr

/-- A JS array read `names[i]` at an integer index: `undefined` (`none`) when
out of bounds. -/
def jsLookup (names : List String) (i : ℤ) : Option String :=
  if 0 ≤ i then names[i.toNat]? else none

/-- The JS `getNoteFromFrequency` (lines 202-246) for a frequency `f > 0`,
parameterized by the exact value `hs = 12 * log2(f / 440)` the code computes
first (`halfStepsFromA4`); `hs` ranges over all reals as `f` ranges over the
positive reals, and every later step of the function is exact arithmetic in
`hs`: `midiNote = Math.round(hs) + 69` with `Math.round x = ⌊x + 1/2⌋`,
`noteIndex = midiNote % 12` (JS remainder takes the sign of the dividend),
`octave = Math.floor(midiNote / 12) - 1`, and the cents offset
`1200 * log2(f / perfectFrequency) = 100 * (hs - (midiNote - 69))`.  The
`f <= 0` early return is outside this parameterization. -/
def getNoteFromHalfSteps (hs : ℚ) : MusicalNote :=
  ⟨round hs + 69,
   (round hs + 69).tmod 12,
   (round hs + 69).fdiv 12 - 1,
   jsLookup noteNamesItalian ((round hs + 69).tmod 12),
   jsLookup noteNamesAnglo ((round hs + 69).tmod 12),
   round hs + 69 - 69,
   100 * (hs - (((round hs + 69 : ℤ) : ℚ) - 69))⟩

/-- The rounding used by the C# port: `Math.Round` rounds to the nearest
integer with ties to the even integer (banker's rounding). -/
def roundHalfEven (q : ℚ) : ℤ :=
  if q - ⌊q⌋ < 1/2 then ⌊q⌋
  else if 1/2 < q - ⌊q⌋ then ⌊q⌋ + 1
  else if ⌊q⌋ % 2 = 0 then ⌊q⌋ else ⌊q⌋ + 1

/-- The C# `GetNoteFromFrequency` (`AudioEngine.cs` lines 577-622) under the
same `hs` parameterization.  Differences from the JS port: `Math.Round` is
half-to-even (JS `Math.round` is half-up), `octave = (midiNote / 12) - 1`
uses C# integer division, which truncates toward zero (JS applies
`Math.floor`), and an array access `names[noteIndex]` with `noteIndex`
outside `[0, 12)` throws (modelled as `none`) where JS yields `undefined`
note names. -/
def csGetNoteFromHalfSteps (hs : ℚ) : Option MusicalNote :=
  if (roundHalfEven hs + 69).tmod 12 < 0 ∨ 12 ≤ (roundHalfEven hs + 69).tmod 12 then none
  else
    some
      ⟨roundHalfEven hs + 69,
       (roundHalfEven hs + 69).tmod 12,
       (roundHalfEven hs + 69).tdiv 12 - 1,
       noteNamesItalian[((roundHalfEven hs + 69).tmod 12).toNat]?,
       noteNamesAnglo[((roundHalfEven hs + 69).tmod 12).toNat]?,
       roundHalfEven hs + 69 - 69,
       100 * (hs - (((roundHalfEven hs + 69 : ℤ) : ℚ) - 69))⟩

/-! General lemmas about the extended-number operations. -/

theorem ENum.ltB_nan_left (x : ENum) : ENum.ltB ENum.nan x = false := by
  cases x <;> rfl

theorem ENum.ltB_nan_right (x : ENum) : ENum.ltB x ENum.nan = false := by
  cases x <;> rfl

theorem ENum.leB_num_num (a b : ℚ) : ENum.leB (ENum.num a) (ENum.num b) = decide (a ≤ b) := rfl

theorem ENum.ltB_num_num (a b : ℚ) : ENum.ltB (ENum.num a) (ENum.num b) = decide (a < b) := rfl

theorem ENum.div_num_nan (q : ℚ) : ENum.div (ENum.num q) ENum.nan = ENum.nan := rfl

theorem ENum.add_num_nan (q : ℚ) : ENum.add (ENum.num q) ENum.nan = ENum.nan := rfl

/-! Lemmas about `calculateConfidence`. -/

theorem calculateConfidence_nan (d : PitchDetector) (s : List ℚ) :
    calculateConfidence d s ENum.nan = 0 := rfl

theorem calculateConfidence_ninf (d : PitchDetector) (s : List ℚ) :
    calculateConfidence d s ENum.ninf = 0 := rfl

theorem calculateConfidence_num_nonpos (d : PitchDetector) (s : List ℚ) (q : ℚ) (hq : q ≤ 0) :
    calculateConfidence d s (ENum.num q) = 0 := by
  unfold calculateConfidence
  rw [if_pos]
  rw [ENum.leB_num_num]
  exact decide_eq_true hq

/-- Whenever `calculateConfidence` returns a nonzero value, the frequency it
was given compares strictly above 0 under the JS comparison (in particular it
is not NaN and not nonpositive). -/
theorem calculateConfidence_ne_zero_pos (d : PitchDetector) (s : List ℚ) (f : ENum)
    (h : calculateConfidence d s f ≠ 0) : ENum.ltB (ENum.num 0) f = true := by
  cases f with
  | nan => exact absurd (calculateConfidence_nan d s) h
  | inf => rfl
  | ninf => exact absurd (calculateConfidence_ninf d s) h
  | num q =>
      by_cases hq : q ≤ 0
      · exact absurd (calculateConfidence_num_nonpos d s q hq) h
      · rw [ENum.ltB_num_num]
        exact decide_eq_true (by linarith)

/-! Claim C1. -/

/-- C1 counterexample: the autocorrelation array `[0, 0, 0]` with interior
peak index 1 has parabolic-interpolation denominator `0 - 2*0 + 0 = 0`, and
the refinement step returns NaN, not the integer lag 1. -/
theorem C1_cex :
    parabolicInterpolation [0, 0, 0] 1 = ENum.nan ∧ ENum.nan ≠ ENum.num 1 := by
  constructor
  · with_unfolding_all decide
  · with_unfolding_all decide

/-- C1 (amended): at an interior peak index whose parabolic-interpolation
denominator `alpha - 2*beta + gamma` is 0, the code has no guard: the
refinement step returns NaN when `alpha = gamma` and a signed infinity
otherwise — never the integer lag. -/
theorem C1_parabolic_degenerate (data : List ℚ) (index : ℤ)
    (h0 : 0 < index) (h1 : index < (data.length : ℤ) - 1)
    (hden : data.getD (index - 1).toNat 0 - 2 * data.getD index.toNat 0
      + data.getD (index + 1).toNat 0 = 0) :
    parabolicInterpolation data index =
      (if data.getD (index - 1).toNat 0 = data.getD (index + 1).toNat 0 then ENum.nan
       else if data.getD (index + 1).toNat 0 < data.getD (index - 1).toNat 0 then ENum.inf
       else ENum.ninf) := by
  have hdivz : ∀ a : ℚ, ENum.div (ENum.num a) (ENum.num 0) =
      if a = 0 then ENum.nan else if 0 < a then ENum.inf else ENum.ninf := by
    intro a
    simp [ENum.div]
  unfold parabolicInterpolation
  rw [if_neg (by omega), hden, hdivz]
  by_cases hag : data.getD (index - 1).toNat 0 = data.getD (index + 1).toNat 0
  · rw [if_pos hag]
    have hz : 1/2 * (data.getD (index - 1).toNat 0 - data.getD (index + 1).toNat 0) = 0 := by
      rw [hag]; ring
    rw [if_pos hz]
    rfl
  · rw [if_neg hag]
    have hz : ¬ (1/2 * (data.getD (index - 1).toNat 0 - data.getD (index + 1).toNat 0) = 0) := by
      intro hc
      exact hag (by linarith)
    rw [if_neg hz]
    by_cases hlt : data.getD (index + 1).toNat 0 < data.getD (index - 1).toNat 0
    · have hpos : 0 < 1/2 * (data.getD (index - 1).toNat 0 - data.getD (index + 1).toNat 0) := by
        linarith
      rw [if_pos hpos, if_pos hlt]
      rfl
    · have hneg : ¬ (0 < 1/2 * (data.getD (index - 1).toNat 0
          - data.getD (index + 1).toNat 0)) := by
        push_neg at hlt ⊢
        have : data.getD (index - 1).toNat 0 < data.getD (index + 1).toNat 0 :=
          lt_of_le_of_ne hlt hag
        linarith
      rw [if_neg hneg, if_neg hlt]
      rfl

/-- C1 witness: the flat interior peak `[1, 1, 1]` at index 1 has denominator
0 with `alpha = gamma`, and the refinement yields NaN. -/
theorem C1_witness : parabolicInterpolation [1, 1, 1] 1 = ENum.nan := by
  rw [C1_parabolic_degenerate [1, 1, 1] 1 (by decide) (by with_unfolding_all decide)
    (by with_unfolding_all decide)]
  with_unfolding_all decide

/-! Claim C2. -/

/-- C2 counterexample: constructing with a negative sample rate, an inverted
frequency range and a threshold above 1 succeeds and yields a detector object
holding exactly those invalid values; nothing is raised. -/
theorem C2_cex :
    PitchDetector.make (-1) 1500 70 2 = ⟨-1, 1500, 70, 2⟩ ∧
    ¬ (0 < (-1 : ℚ)) ∧ ¬ ((1500 : ℚ) < 70) ∧ ¬ ((2 : ℚ) ≤ 1) := by
  refine ⟨rfl, by norm_num, by norm_num, by norm_num⟩

/-- C2 (amended): the constructor performs no validation at all: for every
four argument values, valid or not, it returns the detector record storing
exactly those values.  There is no ConfigurationError anywhere in the code
and no failure path in construction. -/
theorem C2_constructor_stores (sr mn mx th : ℚ) :
    PitchDetector.make sr mn mx th =
      { sampleRate := sr, minFrequency := mn, maxFrequency := mx, threshold := th } := rfl

/-! Claim C6. -/

/-- C6: inside the autocorrelation double loop, with
`window = min(samples.length, 2 * maxLag)` and inner bound `i < window - lag`,
both reads `samples[i]` and `samples[i + lag]` are strictly inside the buffer,
for every lag in `[minLag, maxLag]` with `0 ≤ minLag`, even when `maxLag`
exceeds the buffer length. -/
theorem C6_reads_in_bounds (d : PitchDetector) (s : List ℚ) (lag i : ℤ)
    (h0 : 0 ≤ minLag d) (h1 : minLag d ≤ lag) (h2 : lag ≤ maxLag d)
    (h3 : 0 ≤ i) (h4 : i < acWindow d s - lag) :
    i < (s.length : ℤ) ∧ i + lag < (s.length : ℤ) := by
  unfold acWindow at h4
  omega

/-- C6 witness: a concrete in-bounds instance of the loop-read bound. -/
theorem C6_witness :
    (0 : ℤ) < (([1, 1, 1, 1, 1, 1, 1, 1] : List ℚ).length : ℤ) ∧
    (0 : ℤ) + 2 < (([1, 1, 1, 1, 1, 1, 1, 1] : List ℚ).length : ℤ) :=
  C6_reads_in_bounds (PitchDetector.make 8 2 4 0) [1, 1, 1, 1, 1, 1, 1, 1] 2 0
    (by with_unfolding_all decide) (by with_unfolding_all decide)
    (by with_unfolding_all decide) (by decide) (by with_unfolding_all decide)

/-! Claim C7. -/

/-- C7: for every positive frequency — parameterized by the exact half-step
value `hs = 12 * log2(f/440)`, which ranges over all of the number line —
the cents offset `100 * (hs - round hs)` computed by `getNoteFromFrequency`
lies in `[-50, 50]`. -/
theorem C7_cents_bounded (hs : ℚ) :
    -50 ≤ (getNoteFromHalfSteps hs).centsOffset ∧
      (getNoteFromHalfSteps hs).centsOffset ≤ 50 := by
  have h := abs_sub_round hs
  rw [abs_le] at h
  unfold getNoteFromHalfSteps
  constructor
  · push_cast
    linarith [h.1]
  · push_cast
    linarith [h.2]

/-! Claim C10. -/

/-- C10: a nonempty buffer whose RMS equals the signal threshold exactly is
not treated as silence: the strict test `rms < threshold` fails and
`detectPitch` proceeds down the autocorrelation signal path. -/
theorem C10_threshold_strict (d : PitchDetector) (s : List ℚ)
    (hne : s.length ≠ 0) (heq : calculateRMS s = d.threshold) :
    detectPitch d s = detectPitchSignal d s (calculateRMS s) := by
  unfold detectPitch
  rw [if_neg hne, if_neg (by rw [heq]; exact lt_irrefl _)]

/-- C10 witness: the buffer `[1, 1]` has RMS exactly 1, the configured
threshold, and is analyzed rather than dismissed as silence. -/
theorem C10_witness :
    detectPitch (PitchDetector.make 8 2 4 1) [1, 1] =
      detectPitchSignal (PitchDetector.make 8 2 4 1) [1, 1] (calculateRMS [1, 1]) :=
  C10_threshold_strict (PitchDetector.make 8 2 4 1) [1, 1] (by decide)
    (by with_unfolding_all decide)

/-! Lemmas about the scan range and `findFirstPeak`. -/

theorem intRange_cons (lo hi : ℤ) (h : lo ≤ hi) :
    intRange lo hi = lo :: intRange (lo + 1) hi := by
  unfold intRange
  have h1 : (hi + 1 - lo).toNat = (hi + 1 - (lo + 1)).toNat + 1 := by omega
  rw [h1, List.range_succ_eq_map, List.map_cons, List.map_map]
  refine congrArg₂ _ (by norm_num) ?_
  apply List.map_congr_left
  intro k _
  simp [Function.comp]
  push_cast
  ring

theorem intRange_mem (lo hi i : ℤ) (h : i ∈ intRange lo hi) : lo ≤ i ∧ i ≤ hi := by
  unfold intRange at h
  simp only [List.mem_map, List.mem_range] at h
  obtain ⟨k, hk, rfl⟩ := h
  omega

/-- Folding the peak scan over reads that all return 0 leaves a running
maximum of 0 unchanged (the comparison `0 > 0` is false, so the index is
never replaced). -/
theorem peakFold_zero (ac : List ℚ) (l : List ℤ) (mi : ℤ)
    (h : ∀ i ∈ l, readQ ac i = some 0) :
    l.foldl (peakStep ac) (ENum.num 0, mi) = (ENum.num 0, mi) := by
  induction l generalizing mi with
  | nil => rfl
  | cons a l ih =>
      rw [List.foldl_cons]
      have hstep : peakStep ac (ENum.num 0, mi) a = (ENum.num 0, mi) := by
        unfold peakStep
        rw [h a (List.mem_cons_self a l)]
        simp [ENum.ltB]
      rw [hstep]
      exact ih mi (fun i hi => h i (List.mem_cons_of_mem a hi))

/-- When every scanned read returns 0, `findFirstPeak` returns the first lag:
the initial `-Infinity` is beaten by the first 0 and never again. -/
theorem findFirstPeak_all_zero (ac : List ℚ) (lo hi : ℤ) (hlohi : lo ≤ hi)
    (h : ∀ i, lo ≤ i → i ≤ hi → readQ ac i = some 0) :
    findFirstPeak ac lo hi = lo := by
  unfold findFirstPeak
  rw [intRange_cons lo hi hlohi, List.foldl_cons]
  have hstep : peakStep ac (ENum.ninf, 0) lo = (ENum.num 0, lo) := by
    unfold peakStep
    rw [h lo le_rfl hlohi]
    simp [ENum.ltB]
  rw [hstep, peakFold_zero]
  intro i hmem
  have hb := intRange_mem (lo + 1) hi i hmem
  exact h i (by omega) hb.2

/-! Lemmas about the autocorrelation array. -/

theorem autocorrelation_length (d : PitchDetector) (s : List ℚ) :
    (autocorrelation d s).length = (maxLag d + 1).toNat := by
  unfold autocorrelation
  rw [List.length_map, List.length_range]

theorem acSum_of_window_le (s : List ℚ) (window : ℤ) (lag : ℕ) (h : window ≤ (lag : ℤ)) :
    acSum s window lag = 0 := by
  unfold acSum
  have hz : (window - (lag : ℤ)).toNat = 0 := by omega
  rw [hz]
  rfl

/-- With a buffer no longer than `minLag`, every stored autocorrelation value
is 0: the written entries have empty inner sums (`window ≤ len ≤ minLag ≤
lag`), the others keep their initialization. -/
theorem autocorrelation_all_zero (d : PitchDetector) (s : List ℚ)
    (hlen : (s.length : ℤ) ≤ minLag d) :
    ∀ x ∈ autocorrelation d s, x = 0 := by
  intro x hx
  unfold autocorrelation at hx
  simp only [List.mem_map, List.mem_range] at hx
  obtain ⟨lag, _, rfl⟩ := hx
  split
  next hcond =>
    apply acSum_of_window_le
    have hw : acWindow d s ≤ (s.length : ℤ) := by
      unfold acWindow
      exact min_le_left _ _
    omega
  next => rfl

theorem getD_eq_zero_of_all_zero (l : List ℚ) (h : ∀ x ∈ l, x = 0) (i : ℕ) :
    l.getD i 0 = 0 := by
  rcases lt_or_le i l.length with hlt | hle
  · rw [List.getD_eq_getElem l 0 hlt]
    exact h _ (List.getElem_mem hlt)
  · exact List.getD_eq_default l 0 hle

theorem readQ_autocorrelation_zero (d : PitchDetector) (s : List ℚ)
    (hlen : (s.length : ℤ) ≤ minLag d) (i : ℤ) (h0 : 0 ≤ i) (hhi : i ≤ maxLag d) :
    readQ (autocorrelation d s) i = some 0 := by
  unfold readQ
  rw [if_pos h0]
  have hlt : i.toNat < (autocorrelation d s).length := by
    rw [autocorrelation_length]
    omega
  rw [List.getElem?_eq_getElem hlt]
  exact congrArg some (autocorrelation_all_zero d s hlen _ (List.getElem_mem hlt))

/-- Evaluation of `calculateConfidence` at a finite positive frequency: the
period is the integer `Math.floor(sampleRate / q)` and the function reduces to
its guard-then-loop form. -/
theorem calculateConfidence_num_pos (d : PitchDetector) (s : List ℚ) (q : ℚ) (hq : 0 < q) :
    calculateConfidence d s (ENum.num q) =
      (if ((⌊d.sampleRate / q⌋ : ℤ) : ℚ) ≤ 0 ∨
          (s.length : ℚ) / 2 ≤ ((⌊d.sampleRate / q⌋ : ℤ) : ℚ)
       then 0 else confLoop s ⌊((⌊d.sampleRate / q⌋ : ℤ) : ℚ)⌋) := by
  unfold calculateConfidence
  rw [if_neg]
  · have hd : ENum.div (ENum.num d.sampleRate) (ENum.num q) = ENum.num (d.sampleRate / q) := by
      simp [ENum.div, ne_of_gt hq]
    rw [hd]
    rfl
  · rw [ENum.leB_num_num]
    simp only [decide_eq_true_eq]
    push_neg
    exact hq

/-! Claim C3. -/

/-- C3 counterexample: with sampleRate 8, minFrequency 1 (so maxLag = 8),
maxFrequency 8 and threshold 1/10, the 8-sample buffer `[1,-1,...]` has
length 8 ≤ maxLag and RMS 1 ≥ threshold, yet `detectPitch` returns a VALID
result (the period-2 alternation is detected at peak lag 2 with confidence 1):
a buffer no longer than the maximum lag does not force a no-detection
outcome. -/
theorem C3_cex :
    (([1, -1, 1, -1, 1, -1, 1, -1] : List ℚ).length : ℤ)
        ≤ maxLag (PitchDetector.make 8 1 8 (1/10)) ∧
      ¬ calculateRMS [1, -1, 1, -1, 1, -1, 1, -1]
        < (PitchDetector.make 8 1 8 (1/10)).threshold ∧
      (detectPitch (PitchDetector.make 8 1 8 (1/10)) [1, -1, 1, -1, 1, -1, 1, -1]).isValid
        = true := by
  refine ⟨?_, ?_, ?_⟩
  · with_unfolding_all decide
  · with_unfolding_all decide
  · with_unfolding_all decide

/-- C3 (amended): the guaranteed no-detection bound is `minLag`, not `maxLag`:
for every positively configured detector and every buffer of length at most
`minLag = floor(sampleRate / maxFrequency)` whose RMS passes the threshold,
every autocorrelation sum is empty and `detectPitch` reports an invalid
result. -/
theorem C3_short_buffer_invalid (d : PitchDetector) (s : List ℚ)
    (hsr : 0 < d.sampleRate) (hminf : 0 < d.minFrequency) (hmaxf : 0 < d.maxFrequency)
    (hmm : d.minFrequency ≤ d.maxFrequency)
    (hrms : ¬ calculateRMS s < d.threshold)
    (hlen : (s.length : ℤ) ≤ minLag d) :
    (detectPitch d s).isValid = false := by
  have h0min : (0 : ℤ) ≤ minLag d := Int.floor_nonneg.mpr (div_nonneg hsr.le hmaxf.le)
  have hml : minLag d ≤ maxLag d := by
    apply Int.floor_le_floor
    gcongr
  rcases Nat.eq_zero_or_pos s.length with hz | hpos
  · unfold detectPitch
    rw [if_pos hz]
  · have h1 : 1 ≤ minLag d := by omega
    have hpk : findFirstPeak (autocorrelation d s) (minLag d) (maxLag d) = minLag d :=
      findFirstPeak_all_zero _ _ _ hml (fun i hlo hhi =>
        readQ_autocorrelation_zero d s hlen i (by omega) hhi)
    have hlenac : ((autocorrelation d s).length : ℤ) = maxLag d + 1 := by
      rw [autocorrelation_length]
      omega
    unfold detectPitch
    rw [if_neg (by omega), if_neg hrms]
    unfold detectPitchSignal
    rcases eq_or_lt_of_le hml with heq | hlt
    · -- minLag = maxLag: the peak sits at the end of the array, interpolation
      -- is skipped, and the confidence guard `period >= length/2` fires.
      have hpar : parabolicInterpolation (autocorrelation d s) (minLag d)
          = ENum.num ((minLag d : ℤ) : ℚ) := by
        unfold parabolicInterpolation
        rw [if_pos (Or.inr (by omega))]
      have hfreq : autocorrelationPitchDetection d s
          = ENum.num (d.sampleRate / ((minLag d : ℤ) : ℚ)) := by
        unfold autocorrelationPitchDetection
        rw [hpk, if_neg (by omega), hpar]
        simp only [ENum.div]
        rw [if_neg (by exact_mod_cast (by omega : ¬ (minLag d = 0)))]
      rw [hfreq]
      split
      · rfl
      · have hmlq : (0 : ℚ) < ((minLag d : ℤ) : ℚ) := by exact_mod_cast h1
        have hF : (0 : ℚ) < d.sampleRate / ((minLag d : ℤ) : ℚ) := div_pos hsr hmlq
        have hconf : calculateConfidence d s
            (ENum.num (d.sampleRate / ((minLag d : ℤ) : ℚ))) = 0 := by
          rw [calculateConfidence_num_pos d s _ hF]
          rw [if_pos]
          right
          have hdd : d.sampleRate / (d.sampleRate / ((minLag d : ℤ) : ℚ))
              = ((minLag d : ℤ) : ℚ) := by
            rw [div_div_eq_mul_div, mul_comm, mul_div_assoc, div_self (ne_of_gt hsr), mul_one]
          rw [hdd, Int.floor_intCast]
          have hlq : ((s.length : ℤ) : ℚ) ≤ ((minLag d : ℤ) : ℚ) := by exact_mod_cast hlen
          have hl0 : (0 : ℚ) ≤ ((s.length : ℤ) : ℚ) := by positivity
          push_cast at hlq hl0 ⊢
          linarith
        rw [hconf]
        norm_num
    · -- minLag < maxLag: the peak is interior, all three neighbors are 0, the
      -- interpolation denominator is 0 with alpha = gamma, so the refined lag
      -- and the frequency are NaN; NaN passes the range guards and the
      -- confidence of a NaN frequency is 0.
      have hal : ∀ x ∈ autocorrelation d s, x = 0 := autocorrelation_all_zero d s hlen
      have hpar : parabolicInterpolation (autocorrelation d s) (minLag d) = ENum.nan := by
        unfold parabolicInterpolation
        rw [if_neg (by rw [hlenac]; omega)]
        rw [getD_eq_zero_of_all_zero _ hal, getD_eq_zero_of_all_zero _ hal,
          getD_eq_zero_of_all_zero _ hal]
        norm_num [ENum.div, ENum.add]
      have hfreq : autocorrelationPitchDetection d s = ENum.nan := by
        unfold autocorrelationPitchDetection
        rw [hpk, if_neg (by omega), hpar]
        rfl
      rw [hfreq, ENum.ltB_nan_left, ENum.ltB_nan_right]
      rw [if_neg (by simp)]
      rw [calculateConfidence_nan]
      norm_num

/-- C3 witness: buffer `[1, 1]` of length 2 ≤ minLag 4 with RMS 1 above the
threshold 0 yields an invalid result. -/
theorem C3_witness :
    (detectPitch (PitchDetector.make 8 1 2 0) [1, 1]).isValid = false :=
  C3_short_buffer_invalid (PitchDetector.make 8 1 2 0) [1, 1]
    (by with_unfolding_all decide) (by with_unfolding_all decide)
    (by with_unfolding_all decide) (by with_unfolding_all decide)
    (by with_unfolding_all decide) (by with_unfolding_all decide)

/-! Further confidence lemmas, used by C4 and C5. -/

theorem calculateConfidence_inf (d : PitchDetector) (s : List ℚ) :
    calculateConfidence d s ENum.inf = 0 := by
  unfold calculateConfidence
  rw [if_neg (by simp [ENum.leB])]
  simp [ENum.div, ENum.floorE]

/-- A buffer of length 0 always gets confidence 0: every period is either
nonpositive or at least `length / 2 = 0`, and a NaN period yields 0 through
the empty loop. -/
theorem calculateConfidence_len_zero (d : PitchDetector) (s : List ℚ) (f : ENum)
    (h : s.length = 0) : calculateConfidence d s f = 0 := by
  cases f with
  | nan => exact calculateConfidence_nan d s
  | ninf => exact calculateConfidence_ninf d s
  | inf => exact calculateConfidence_inf d s
  | num q =>
      rcases le_or_lt q 0 with hq | hq
      · exact calculateConfidence_num_nonpos d s q hq
      · rw [calculateConfidence_num_pos d s q hq, if_pos]
        rcases le_or_lt ((⌊d.sampleRate / q⌋ : ℤ) : ℚ) 0 with hp | hp
        · exact Or.inl hp
        · right
          rw [h]
          push_cast
          linarith

/-! Claim C4. -/

/-- C4 counterexample: with sampleRate 8, range [2, 4], threshold 1/10, the
buffer `[1, 1/2, 0, -2, -1, 0, 0, 0]` (RMS 7/8) produces peak lag 2 whose
parabolic offset is -5/2, a refined lag of -1/2 and a frequency of -16, which
the out-of-range branch returns as-is: the result field `frequency` is
negative, and the JS test `frequency >= 0` is false. -/
theorem C4_cex :
    (detectPitch (PitchDetector.make 8 2 4 (1/10)) [1, 1/2, 0, -2, -1, 0, 0, 0]).frequency
        = ENum.num (-16) ∧
      ENum.geB
        (detectPitch (PitchDetector.make 8 2 4 (1/10)) [1, 1/2, 0, -2, -1, 0, 0, 0]).frequency
        (ENum.num 0) = false := by
  constructor
  · with_unfolding_all decide
  · with_unfolding_all decide

/-- C4 (amended): the frequency field need not be nonnegative on the
out-of-range branch (it is returned as-is there and can be negative or NaN),
but every result marked valid carries a strictly positive finite frequency,
and the no-detection branches return exactly 0. -/
theorem C4_valid_implies_pos_frequency (d : PitchDetector) (s : List ℚ)
    (h : (detectPitch d s).isValid = true) :
    ENum.ltB (ENum.num 0) (detectPitch d s).frequency = true := by
  unfold detectPitch at h ⊢
  split at h
  · exact absurd h (by simp)
  next hz =>
    rw [if_neg hz]
    split at h
    next hth => exact absurd h (by simp)
    next hth =>
      rw [if_neg hth]
      unfold detectPitchSignal at h ⊢
      split at h
      next hrange => exact absurd h (by simp)
      next hrange =>
        rw [if_neg hrange]
        simp only [decide_eq_true_eq] at h
        have hne : calculateConfidence d s (autocorrelationPitchDetection d s) ≠ 0 := by
          intro hc
          rw [hc] at h
          norm_num at h
        exact calculateConfidence_ne_zero_pos d s _ hne

/-- C4 witness: the period-2 alternating buffer is detected with confidence 1
(`isValid = true`), and its frequency compares strictly above 0. -/
theorem C4_witness :
    (detectPitch (PitchDetector.make 8 1 8 (1/10)) [1, -1, 1, -1, 1, -1, 1, -1]).isValid
        = true ∧
      ENum.ltB (ENum.num 0)
        (detectPitch (PitchDetector.make 8 1 8 (1/10)) [1, -1, 1, -1, 1, -1, 1, -1]).frequency
        = true :=
  ⟨by with_unfolding_all decide,
   C4_valid_implies_pos_frequency (PitchDetector.make 8 1 8 (1/10))
     [1, -1, 1, -1, 1, -1, 1, -1] (by with_unfolding_all decide)⟩

/-! Claim C5. -/

/-- C5: `detectPitch` returns `isValid = true` exactly when all three gates
pass: the RMS is not below the signal threshold, the estimated frequency is
not out of range under the JS comparisons (`frequency < minFrequency` and
`maxFrequency < frequency` both false), and the confidence computed at that
frequency exceeds 1/2. -/
theorem C5_isValid_iff (d : PitchDetector) (s : List ℚ) :
    (detectPitch d s).isValid = true ↔
      (¬ calculateRMS s < d.threshold ∧
       (ENum.ltB (autocorrelationPitchDetection d s) (ENum.num d.minFrequency) = false ∧
        ENum.ltB (ENum.num d.maxFrequency) (autocorrelationPitchDetection d s) = false) ∧
       (1:ℚ)/2 < calculateConfidence d s (autocorrelationPitchDetection d s)) := by
  unfold detectPitch
  split
  next hz =>
    constructor
    · intro h
      exact absurd h (by simp)
    · rintro ⟨-, -, hconf⟩
      rw [calculateConfidence_len_zero d s _ hz] at hconf
      norm_num at hconf
  next hz =>
    split
    next hth =>
      constructor
      · intro h
        exact absurd h (by simp)
      · rintro ⟨hg1, -, -⟩
        exact absurd hth hg1
    next hth =>
      unfold detectPitchSignal
      split
      next hrange =>
        constructor
        · intro h
          exact absurd h (by simp)
        · rintro ⟨-, ⟨hr1, hr2⟩, -⟩
          rw [Bool.or_eq_true] at hrange
          rcases hrange with hx | hx
          · rw [hr1] at hx
            exact absurd hx (by simp)
          · rw [hr2] at hx
            exact absurd hx (by simp)
      next hrange =>
        simp only [Bool.or_eq_true, not_or, Bool.not_eq_true] at hrange
        constructor
        · intro h
          simp only [decide_eq_true_eq] at h
          exact ⟨hth, ⟨hrange.1, hrange.2⟩, h⟩
        · rintro ⟨-, -, hconf⟩
          simp only [decide_eq_true_eq]
          exact hconf

/-! Claim C8. -/

/-- C8 counterexample: at `hs = -70` (a positive frequency of about 7.73 Hz,
namely 440·2^(-35/6)), the MIDI number is -1, the JS remainder gives lookup
index `-1 % 12 = -1`, which is not in [0, 11], and the note-name lookup yields
`undefined` rather than one of the 12 chromatic entries. -/
theorem C8_cex :
    (getNoteFromHalfSteps (-70)).midiNote = -1 ∧
      (getNoteFromHalfSteps (-70)).noteIndex = -1 ∧
      (getNoteFromHalfSteps (-70)).noteName = none ∧
      ¬ (0 ≤ (getNoteFromHalfSteps (-70)).noteIndex) := by
  refine ⟨?_, ?_, ?_, ?_⟩
  · with_unfolding_all decide
  · with_unfolding_all decide
  · with_unfolding_all decide
  · with_unfolding_all decide

/-- C8 (amended): for every frequency whose rounded MIDI number is
nonnegative, the lookup index `midiNumber % 12` lies in [0, 11], both naming
tables produce an entry, and the octave is `floor(midiNumber / 12) - 1`; for
lower frequencies (MIDI number negative, below about 8 Hz) the JS remainder
is negative and the lookup misses the tables. -/
theorem C8_note_mapping (hs : ℚ) (h : 0 ≤ round hs + 69) :
    0 ≤ (getNoteFromHalfSteps hs).noteIndex ∧
      (getNoteFromHalfSteps hs).noteIndex < 12 ∧
      (getNoteFromHalfSteps hs).noteName.isSome = true ∧
      (getNoteFromHalfSteps hs).noteNameAnglo.isSome = true ∧
      (getNoteFromHalfSteps hs).octave = (getNoteFromHalfSteps hs).midiNote.fdiv 12 - 1 := by
  have hb : 0 ≤ (round hs + 69).tmod 12 ∧ (round hs + 69).tmod 12 < 12 := by
    rw [Int.tmod_eq_emod h (by norm_num)]
    omega
  refine ⟨hb.1, hb.2, ?_, ?_, rfl⟩
  · have hlt : ((round hs + 69).tmod 12).toNat < noteNamesItalian.length := by
      have h12 : noteNamesItalian.length = 12 := rfl
      omega
    simp only [getNoteFromHalfSteps, jsLookup, if_pos hb.1]
    rw [List.getElem?_eq_getElem hlt]
    rfl
  · have hlt : ((round hs + 69).tmod 12).toNat < noteNamesAnglo.length := by
      have h12 : noteNamesAnglo.length = 12 := rfl
      omega
    simp only [getNoteFromHalfSteps, jsLookup, if_pos hb.1]
    rw [List.getElem?_eq_getElem hlt]
    rfl

/-- C8 witness: at `hs = 0` (frequency 440 Hz) the MIDI number is 69, the
lookup index 9 selects LA / A, and the octave is 4. -/
theorem C8_witness :
    (0 ≤ (getNoteFromHalfSteps 0).noteIndex ∧
      (getNoteFromHalfSteps 0).noteIndex < 12 ∧
      (getNoteFromHalfSteps 0).noteName.isSome = true ∧
      (getNoteFromHalfSteps 0).noteNameAnglo.isSome = true ∧
      (getNoteFromHalfSteps 0).octave = (getNoteFromHalfSteps 0).midiNote.fdiv 12 - 1) ∧
      (getNoteFromHalfSteps 0).midiNote = 69 ∧
      (getNoteFromHalfSteps 0).noteIndex = 9 ∧
      (getNoteFromHalfSteps 0).noteName = some "LA" ∧
      (getNoteFromHalfSteps 0).noteNameAnglo = some "A" ∧
      (getNoteFromHalfSteps 0).octave = 4 :=
  ⟨C8_note_mapping 0 (by with_unfolding_all decide),
   by with_unfolding_all decide, by with_unfolding_all decide,
   by with_unfolding_all decide, by with_unfolding_all decide,
   by with_unfolding_all decide⟩

/-! Claim C9. -/

/-- C9 counterexample: at `hs = 1/2` (a frequency exactly half a semitone
above A4) the two ports disagree already on the MIDI number: JS
`Math.round(0.5) = 1` gives MIDI 70, while C# `Math.Round(0.5) = 0`
(half-to-even) gives MIDI 69. -/
theorem C9_cex :
    Option.map MusicalNote.midiNote (csGetNoteFromHalfSteps (1/2)) = some 69 ∧
      (getNoteFromHalfSteps (1/2)).midiNote = 70 := by
  constructor
  · with_unfolding_all decide
  · with_unfolding_all decide

/-- C9 (amended): the two note mappers agree exactly on the inputs where the
two rounding modes coincide (no half-integer tie broken differently) and the
resulting MIDI number is nonnegative (so truncating and flooring division
agree and the table lookups are in range); on such inputs every compared
field is equal. -/
theorem C9_ports_agree (hs : ℚ) (hr : round hs = roundHalfEven hs)
    (hm : 0 ≤ round hs + 69) :
    csGetNoteFromHalfSteps hs = some (getNoteFromHalfSteps hs) := by
  have hb : 0 ≤ (round hs + 69).tmod 12 ∧ (round hs + 69).tmod 12 < 12 := by
    rw [Int.tmod_eq_emod hm (by norm_num)]
    omega
  have hoct : (round hs + 69).tdiv 12 = (round hs + 69).fdiv 12 := by
    rw [Int.tdiv_eq_ediv hm (by norm_num), Int.fdiv_eq_ediv _ (by norm_num)]
  unfold csGetNoteFromHalfSteps getNoteFromHalfSteps
  rw [← hr, if_neg (by push_neg; omega)]
  rw [hoct]
  simp only [jsLookup, if_pos hb.1]

/-- C9 witness: at `hs = 0` (440 Hz) both roundings give 0, the MIDI number
69 is nonnegative, and the two ports return identical notes. -/
theorem C9_witness : csGetNoteFromHalfSteps 0 = some (getNoteFromHalfSteps 0) :=
  C9_ports_agree 0 (by with_unfolding_all decide) (by with_unfolding_all decide)
